import Mathlib

/-!
Shallow embedding of `declarative_parser/parser.py` (krassowski/declarative-parser).

Python values are modelled by `DP.Val`; `argparse.Namespace` objects by `DP.NsObj`
(an object identity tag plus an ordered field list, mirroring `vars()` order and
in-place `setattr` mutation).  Dictionaries (`self.arguments`, `grouped_args`, ...)
are ordered association lists with Python `dict` update semantics.  Fatal paths
(`parser.error` raising `SystemExit`) are an explicit `Outcome`.  Recursion over
the parser tree uses an explicit fuel parameter so that every function reduces in
the kernel.
-/

namespace DP

/-- A Python value, restricted to the shapes the parser manipulates. -/
inductive Val where
  | vNone : Val
  | vBool : Bool → Val
  | vInt : Int → Val
  | vStr : String → Val
  | vList : List Val → Val
  | vFunc : Val
  | vNs : Nat → List (String × Val) → Val

/-- Python truthiness (`bool(x)`) for the modelled values. -/
def pyTruthy : Val → Bool
  | .vNone => false
  | .vBool b => b
  | .vInt n => n != 0
  | .vStr s => s != ""
  | .vList vs => !vs.isEmpty
  | .vFunc => true
  | .vNs _ _ => true

/-- Python `callable(x)` for the modelled values. -/
def pyCallable : Val → Bool
  | .vFunc => true
  | _ => false

/-- Python `len(x)` for the sized values used by the count constraint
(in the code paths exercised, `len` is applied to lists and strings). -/
def pyLen : Val → Nat
  | .vList vs => vs.length
  | .vStr s => s.length
  | _ => 0

/-- Ordered association-list lookup (first match), as Python `dict.__getitem__`
on dictionaries whose keys are kept unique by `dictSet`. -/
def dlookup : List (String × α) → String → Option α
  | [], _ => none
  | (k, v) :: rest, key => if k = key then some v else dlookup rest key

/-- Overwrite every entry keyed `k` with the value `v`, in place. -/
def setEntry : List (String × α) → String → α → List (String × α)
  | [], _, _ => []
  | (k1, v1) :: rest, k, v =>
    if k1 = k then (k, v) :: setEntry rest k v
    else (k1, v1) :: setEntry rest k v

/-- `d[k] = v` on a Python dict / `setattr` on a namespace: overwrite in place
when the key exists, append otherwise (insertion order preserved). -/
def dictSet (d : List (String × α)) (k : String) (v : α) : List (String × α) :=
  if (dlookup d k).isSome then
    setEntry d k v
  else
    d ++ [(k, v)]

/-- Python `a.update(b)` / `{**a, **b}`: entries of `b` written into `a` in order. -/
def dictUpdate (d : List (String × α)) (e : List (String × α)) : List (String × α) :=
  e.foldl (fun acc p => dictSet acc p.1 p.2) d

@[simp] theorem dlookup_nil (key : String) : dlookup ([] : List (String × α)) key = none := rfl

@[simp] theorem dlookup_cons (k : String) (v : α) (rest : List (String × α)) (key : String) :
    dlookup ((k, v) :: rest) key = if k = key then some v else dlookup rest key := rfl

/-- `declarative_parser.parser.group_arguments` (parser.py lines 10-19):
group arguments into given groups plus the `None` group for all others.
The `None` group is returned separately (second component); the named groups
keep defaultdict semantics: a key exists only once `groups[group].append(arg)`
ran for it, i.e. only when at least one non-name token was filed under it. -/
def groupArgumentsGo (group_names : List String) :
    List String → Option String → List (String × List String) → List String →
    List (String × List String) × List String
  | [], _, groups, ungrouped => (groups, ungrouped)
  | arg :: rest, current, groups, ungrouped =>
    if arg ∈ group_names then
      groupArgumentsGo group_names rest (some arg) groups ungrouped
    else
      match current with
      | none => groupArgumentsGo group_names rest current groups (ungrouped ++ [arg])
      | some k =>
        groupArgumentsGo group_names rest current
          (dictSet groups k (((dlookup groups k).getD []) ++ [arg])) ungrouped

def group_arguments (args : List String) (group_names : List String) :
    List (String × List String) × List String :=
  groupArgumentsGo group_names args none [] []

/-- `Argument` (parser.py lines 22-99).  `as_many_as` stores the partner
argument; `Argument.validate` only reads its `.name`, so the partner name is
stored here.  `default` is `kwargs.get('default', None)`. -/
structure Argument where
  name : String
  short : Option String := none
  optional : Bool := true
  as_many_as : Option String := none
  default : Val := .vNone

/-- `Argument.args` (parser.py lines 68-79): command-line spellings. -/
def Argument.cliArgs (a : Argument) : List String :=
  if a.optional then
    (match a.short with
     | some s => ["-" ++ s]
     | none => []) ++ ["--" ++ a.name]
  else [a.name]

/-- `Argument.as_numerous_as` (parser.py lines 81-88). -/
def as_numerous_as (myself partner : Val) : Bool :=
  if pyCallable myself then true
  else if pyTruthy partner && pyTruthy myself then pyLen partner == pyLen myself
  else true

/-- `Argument.validate` (parser.py lines 90-99): when a count-reference partner
is set and `as_numerous_as` fails, raise `ValueError` with the exact message
built from both names and both lengths. -/
def Argument.validate (a : Argument) (fields : List (String × Val)) : Except String Unit :=
  let myself := (dlookup fields a.name).getD .vNone
  match a.as_many_as with
  | none => .ok ()
  | some partnerName =>
    let partner := (dlookup fields partnerName).getD .vNone
    if as_numerous_as myself partner then .ok ()
    else
      .error (a.name ++ " for " ++ toString (pyLen myself) ++ " " ++ partnerName ++
        " provided, expected for " ++ toString (pyLen partner))

/-- `Parser.validate` (parser.py lines 402-412): run `Argument.validate` for
every argument in `all_arguments`, first failure raising. -/
def validateAll : List Argument → List (String × Val) → Except String Unit
  | [], _ => .ok ()
  | a :: rest, fields =>
    match a.validate fields with
    | .ok _ => validateAll rest fields
    | .error e => .error e

/-- An `argparse.Namespace` object: an object-identity tag plus the ordered
field mapping that `vars()` iterates over.  In-place mutation is modelled by
returning an `NsObj` with the same `id` and new `fields`. -/
structure NsObj where
  id : Nat
  fields : List (String × Val)

/-- A `Parser` instance (parser.py class `Parser`) after `__init__` has
registered class attributes: own `arguments` keyed by attribute name,
`subparsers` keyed by attribute name in registration order, the
`__pull_to_namespace_above__`, `__skip_if_absent__` and `__parsing_order__`
configuration, and the (overridable) `produce` hook.  `hook = none` is the
default `produce` (return `self.namespace`, leave `unknown_args` alone);
`hook = some f` is a user override, receiving the namespace object and the
unknown-token list and returning the object it returns plus the (possibly
mutated) unknown-token list. -/
inductive Parser where
  | mk (arguments : List (String × Argument))
       (subparsers : List (String × Parser))
       (lifted : Bool)
       (skipIfAbsent : Bool)
       (breadthFirst : Bool)
       (hook : Option (NsObj → List String → NsObj × List String))

def Parser.arguments : Parser → List (String × Argument)
  | .mk a _ _ _ _ _ => a

def Parser.subparsers : Parser → List (String × Parser)
  | .mk _ s _ _ _ _ => s

def Parser.lifted : Parser → Bool
  | .mk _ _ l _ _ _ => l

def Parser.skipIfAbsent : Parser → Bool
  | .mk _ _ _ s _ _ => s

def Parser.breadthFirst : Parser → Bool
  | .mk _ _ _ _ b _ => b

def Parser.hook : Parser → Option (NsObj → List String → NsObj × List String)
  | .mk _ _ _ _ _ h => h

/-- `self.lifted_args` (parser.py lines 231, 328-329): for each bound
sub-parser with `__pull_to_namespace_above__`, `lifted_args.update(parser.arguments)`
in registration order. -/
def lifted_args (t : Parser) : List (String × Argument) :=
  t.subparsers.foldl
    (fun acc p => if p.2.lifted then dictUpdate acc p.2.arguments else acc) []

/-- `self.lifted_parsers` keys (parser.py lines 230, 330): the sub-parsers of
lifted children, pulled up.  Only the key set matters for grouping. -/
def lifted_parser_names (t : Parser) : List String :=
  t.subparsers.foldl
    (fun acc p => if p.2.lifted then acc ++ p.2.subparsers.map Prod.fst else acc) []

/-- `self.all_arguments` (parser.py lines 259-261): `{**arguments, **lifted_args}`. -/
def all_arguments (t : Parser) : List (String × Argument) :=
  dictUpdate t.arguments (lifted_args t)

/-- Keys of `self.all_subparsers` (parser.py lines 255-257), used as group
names; dict-merge deduplication does not matter for membership tests. -/
def all_subparser_names (t : Parser) : List String :=
  t.subparsers.map Prod.fst ++ lifted_parser_names t

/-- The argument list handed to argparse and to `Parser.validate`. -/
def argumentList (t : Parser) : List Argument :=
  (all_arguments t).map Prod.snd

/-- Namespace initialization (parser.py lines 245-247): each argument name is
set to the argument default, in `all_arguments` order. -/
def initFields (t : Parser) : List (String × Val) :=
  (all_arguments t).foldl (fun acc p => dictSet acc p.1 p.2.default) []

/-- Modelled from the spec: `argparse.ArgumentParser.parse_known_args`
(Python standard library, missing from src/): match own tokens against
declared Arguments, populate the namespace passed in (the same object is
returned), collect any tokens matching no declared Argument as unknown.
Only the `--name value` optional form the core relies on is modelled; a
trailing flag with no value is left among the unknowns. -/
def builtinParseKnownArgs (args : List Argument) :
    List String → NsObj → NsObj × List String
  | [], ns => (ns, [])
  | tok :: rest, ns =>
    match args.find? (fun a => "--" ++ a.name == tok) with
    | some a =>
      match rest with
      | v :: rest2 =>
        let ns2 : NsObj := ⟨ns.id, dictSet ns.fields a.name (.vStr v)⟩
        builtinParseKnownArgs args rest2 ns2
      | [] => (ns, [tok])
    | none =>
      let (ns2, unknown) := builtinParseKnownArgs args rest ns
      (ns2, tok :: unknown)

/-- Result of a parse pass.  `exit c m` models `SystemExit` raised through
`Parser.error` / argparse (`c` the status, `m` the message); `assertFail`
models an uncaught `AssertionError`; `outOfFuel` never occurs when the fuel
exceeds the tree depth. -/
inductive Outcome where
  | ok (ns : NsObj) (unknown : List String)
  | exit (code : Nat) (msg : String)
  | assertFail
  | outOfFuel

/-- Observable steps of the parse protocol.  The path is the list of
attachment names from the root down to the node emitting the event. -/
inductive Event where
  | ownParsed (path : List String) (fields : List (String × Val))
  | validated (path : List String)
  | produced (path : List String) (fields : List (String × Val))
  | childSkipped (path : List String) (name : String)

/-- `" ".join(tokens)`. -/
def joinSpace : List String → String
  | [] => ""
  | [s] => s
  | s :: rest => s ++ " " ++ joinSpace rest

/-- `defaultdict.__getitem__`: return the stored list, inserting an empty
list for a missing key (the mutation is visible to later membership tests). -/
def groupsGet (g : List (String × List String)) (key : String) :
    List String × List (String × List String) :=
  match dlookup g key with
  | some toks => (toks, g)
  | none => ([], g ++ [(key, [])])

/-- The token list built for a lifted child (parser.py lines 375-381):
`[arg_str for key in parser.subparsers for arg_str in [key, *grouped_args[key]]
if key in grouped_args]`.  The iterable `[key, *grouped_args[key]]` is
evaluated before the guard, and the defaultdict access inserts `key`, so the
guard is always true afterwards: every sub-parser key of the lifted child is
included (with an empty token list when the key was absent), and all those
keys end up inserted into `grouped_args`. -/
def liftedTokens : List String → List (String × List String) →
    List String × List (String × List String)
  | [], g => ([], g)
  | key :: rest, g =>
    let (toks, g2) := groupsGet g key
    let (more, g3) := liftedTokens rest g2
    (key :: (toks ++ more), g3)

/-- Apply the `produce` hook: the default returns `self.namespace` unchanged;
an override returns whatever object it returns. -/
def applyHook (hook : Option (NsObj → List String → NsObj × List String))
    (ns : NsObj) (unknown : List String) : NsObj × List String :=
  match hook with
  | none => (ns, unknown)
  | some f => f ns unknown

/-- `Parser.parse_single_level` (parser.py lines 338-356): short-circuit for a
lifted, skip-if-absent node with no ungrouped tokens; otherwise run the
builtin parser on the node namespace, run `validate` (a `ValueError` is
funnelled through `self.error`, i.e. `SystemExit(2)`), run `produce`, and
assert that the object `produce` returned is the namespace object. -/
def parse_single_level (t : Parser) (path : List String)
    (ungrouped : List String) (ns : NsObj) : Outcome × List Event :=
  if t.lifted && t.skipIfAbsent && ungrouped.isEmpty then
    (.ok ns ungrouped, [])
  else
    let (ns1, unknown) := builtinParseKnownArgs (argumentList t) ungrouped ns
    match validateAll (argumentList t) ns1.fields with
    | .error e =>
      (.exit 2 e, [.ownParsed path ns1.fields, .validated path])
    | .ok _ =>
      let (opts, unknown2) := applyHook t.hook ns1 unknown
      let tr := [.ownParsed path ns1.fields, .validated path, .produced path ns1.fields]
      if opts.id = ns1.id then (.ok opts unknown2, tr)
      else (.assertFail, tr)

/-- A pending recursive call of the parse protocol: either the
`parse_known_args` entry for one node, or the child loop of
`parse_known_args` over the remaining `subparsers` entries (threading the
loop index, the mutable `grouped_args` and the node namespace). -/
inductive Call where
  | parse (t : Parser) (path : List String) (nid : Nat) (args : List String)
  | children (cs : List (String × Parser)) (path : List String) (nid : Nat)
      (i : Nat) (g : List (String × List String)) (ns : NsObj)

/-- Executes `Parser.parse_known_args` (parser.py lines 358-400) and its
child loop (lines 371-395), with explicit fuel (structural recursion so the
kernel can evaluate it).

`Call.parse`: group the tokens by the names of `all_subparsers`, run the
single-level step before the children for breadth-first order and after
them for depth-first order, and return the namespace together with the
unknown tokens of the single-level step.

`Call.children`: for each child in declaration order: a lifted child is
recursed into on `liftedTokens` and its namespace fields are copied one by
one into this namespace (no nested entry); a skip-if-absent child whose name
is not a key of `grouped_args` is set to `None` and skipped; any other child
is recursed into on its token group (a defaultdict access) and stored as a
nested namespace.  Non-empty leftover from a recursed child reports a fatal
`unrecognized arguments` error (`SystemExit(2)` raised through the child). -/
def runCall : Nat → Call → Outcome × List Event
  | 0, _ => (.outOfFuel, [])
  | fuel + 1, .parse t path nid args =>
    let ns0 : NsObj := ⟨nid, initFields t⟩
    let (g, ungrouped) := group_arguments args (all_subparser_names t)
    if t.breadthFirst then
      match parse_single_level t path ungrouped ns0 with
      | (.ok ns1 unknown, tr1) =>
        match runCall fuel (.children t.subparsers path nid 0 g ns1) with
        | (.ok ns2 _, tr2) => (.ok ns2 unknown, tr1 ++ tr2)
        | (out, tr2) => (out, tr1 ++ tr2)
      | bad => bad
    else
      match runCall fuel (.children t.subparsers path nid 0 g ns0) with
      | (.ok ns1 _, tr1) =>
        match parse_single_level t path ungrouped ns1 with
        | (.ok ns2 unknown, tr2) => (.ok ns2 unknown, tr1 ++ tr2)
        | (out, tr2) => (out, tr1 ++ tr2)
      | bad => bad
  | _ + 1, .children [] _ _ _ _ ns => (.ok ns [], [])
  | fuel + 1, .children ((name, c) :: rest) path nid i g ns =>
    if c.lifted then
      let (toks, g2) := liftedTokens (c.subparsers.map Prod.fst) g
      match runCall fuel (.parse c (path ++ [name]) (nid * 17 + i + 1) toks) with
      | (.ok cns notParsed, tr) =>
        let ns2 : NsObj := ⟨ns.id, dictUpdate ns.fields cns.fields⟩
        if notParsed.isEmpty then
          let (out, tr2) := runCall fuel (.children rest path nid (i + 1) g2 ns2)
          (out, tr ++ tr2)
        else
          (.exit 2 ("unrecognized arguments: " ++ joinSpace notParsed), tr)
      | (out, tr) => (out, tr)
    else
      if c.skipIfAbsent && (dlookup g name).isNone then
        let ns2 : NsObj := ⟨ns.id, dictSet ns.fields name .vNone⟩
        let (out, tr2) := runCall fuel (.children rest path nid (i + 1) g ns2)
        (out, .childSkipped path name :: tr2)
      else
        let (toks, g2) := groupsGet g name
        match runCall fuel (.parse c (path ++ [name]) (nid * 17 + i + 1) toks) with
        | (.ok cns notParsed, tr) =>
          let ns2 : NsObj := ⟨ns.id, dictSet ns.fields name (.vNs cns.id cns.fields)⟩
          if notParsed.isEmpty then
            let (out, tr2) := runCall fuel (.children rest path nid (i + 1) g2 ns2)
            (out, tr ++ tr2)
          else
            (.exit 2 ("unrecognized arguments: " ++ joinSpace notParsed), tr)
        | (out, tr) => (out, tr)

/-- `Parser.parse_known_args` entry point. -/
def parse_known_args (fuel : Nat) (t : Parser) (path : List String)
    (nid : Nat) (args : List String) : Outcome × List Event :=
  runCall fuel (.parse t path nid args)

/-- The child loop of `parse_known_args`, as a named entry point. -/
def runChildren (fuel : Nat) (children : List (String × Parser))
    (path : List String) (nid : Nat) (i : Nat)
    (g : List (String × List String)) (ns : NsObj) : Outcome × List Event :=
  runCall fuel (.children children path nid i g ns)

/-- Modelled from the spec: the help handling of the builtin
`argparse.ArgumentParser.parse_args` (Python standard library, missing from
src/): "if a help flag appears anywhere in the raw input, the whole tree's
usage/description/epilog is rendered ... and the process terminates
successfully before any parsing step runs".  Without a help flag the builtin
call returns and control continues. -/
def builtinHelpExit (args : List String) : Option Outcome :=
  if args.contains "-h" || args.contains "--help" then
    some (.exit 0 "usage")
  else
    none

/-- `Parser.parse_args` (parser.py lines 468-494): delegate to the builtin
parser when a help flag is present or the argument list is empty, then parse
with `parse_known_args` and fail on leftover unknown tokens. -/
def parse_args (fuel : Nat) (t : Parser) (nid : Nat) (args : List String) :
    Outcome × List Event :=
  if args.contains "-h" || args.contains "--help" || args.isEmpty then
    match builtinHelpExit args with
    | some out => (out, [])
    | none =>
      match parse_known_args fuel t [] nid args with
      | (.ok ns unknown, tr) =>
        if unknown.isEmpty then (.ok ns [], tr)
        else (.exit 2 ("unrecognized arguments: " ++ joinSpace unknown), tr)
      | bad => bad
  else
    match parse_known_args fuel t [] nid args with
    | (.ok ns unknown, tr) =>
      if unknown.isEmpty then (.ok ns [], tr)
      else (.exit 2 ("unrecognized arguments: " ++ joinSpace unknown), tr)
    | bad => bad

/-- The option strings among `Argument.args`: for an optional argument all of
its spellings carry a leading dash; a required argument is a bare positional
and registers no option strings. -/
def Argument.optionStrings (a : Argument) : List String :=
  if a.optional then a.cliArgs else []

/-- Modelled from the spec: conflict detection of the builtin
`argparse.ArgumentParser.add_argument` (Python standard library, missing from
src/): registering an option string that is already registered raises
`argparse.ArgumentError` at construction time; positionals register no option
strings. -/
def addArguments : List Argument → List String → Except String Unit
  | [], _ => .ok ()
  | a :: rest, seen =>
    let opts := a.optionStrings
    if opts.any (fun s => decide (s ∈ seen)) then
      .error ("conflicting option string: " ++ joinSpace opts)
    else
      addArguments rest (seen ++ opts)

/-- `Parser.to_builtin_parser` (parser.py lines 263-265) as run at the end of
`__init__` (line 252): attach every argument of `all_arguments` to the builtin
argparse parser; the construction fails exactly when argparse detects
conflicting option strings. -/
def to_builtin (t : Parser) : Except String Unit :=
  addArguments (argumentList t) []

/-- The node path an event was emitted at. -/
def eventPath : Event → List String
  | .ownParsed p _ => p
  | .validated p => p
  | .produced p _ => p
  | .childSkipped p _ => p

/-- An event of a node's own single-level step: own-argument parsing,
validation or produce, emitted at exactly this node's path. -/
def isOwnStep (path : List String) : Event → Prop
  | .ownParsed p _ => p = path
  | .validated p => p = path
  | .produced p _ => p = path
  | .childSkipped _ _ => False

/-- An event of a node's child step: either the skip marker recorded at this
node, or any event emitted at a strictly deeper path. -/
def isChildStep (path : List String) (e : Event) : Prop :=
  (∃ nm, e = .childSkipped path nm) ∨ (∃ nm q, eventPath e = path ++ nm :: q)

/-! ### Concrete parser instances used by the claim theorems -/

/-- A sub-parser owning one argument, for the parsing-order theorems. -/
def demoChild : Parser := .mk [("format", { name := "format" })] [] false true false none

/-- A depth-first root with one own argument and one child. -/
def demoRoot : Parser :=
  .mk [("verbose", { name := "verbose" })] [("input", demoChild)] false true false none

/-- The breadth-first variant of `demoRoot`. -/
def demoRootBF : Parser :=
  .mk [("verbose", { name := "verbose" })] [("input", demoChild)] false true true none

/-- A childless, non-lifted, skip-if-absent, depth-first node with the default
`produce`, owning the given arguments. -/
def leafNode (args : List (String × Argument)) : Parser :=
  .mk args [] false true false none

/-- A sub-parser owning one argument, attached as `child` below. -/
def c3leaf : Parser := leafNode [("opt", { name := "opt" })]

/-- A root whose single skip-if-absent child is named `child`. -/
def c3tree : Parser := .mk [] [("child", c3leaf)] false true false none

/-- A lifted sub-parser owning one argument keyed `x`, shadowing the parent
argument of the same attribute key and name. -/
def c2liftChild : Parser :=
  .mk [("x", { name := "x", default := .vStr "lifted" })] [] true true false none

/-- A root declaring an own argument `x` together with a lifted child whose
argument is also keyed and named `x`. -/
def c2tree : Parser :=
  .mk [("x", { name := "x" })] [("sub", c2liftChild)] false true false none

/-- A produce override returning a fresh object: the same fields under a new
identity, modelling `return Namespace(**vars(self.namespace))` style code. -/
def c10hook : NsObj → List String → NsObj × List String :=
  fun m u => (⟨m.id + 1, m.fields⟩, u)

/-- A childless, argument-less node whose produce override returns a fresh
object instead of the parser namespace. -/
def c10demo : Parser := .mk [] [] false true false (some c10hook)

/-- A grandchild node, attached inside the lifted `c5L` under the name
`zchild` — the same name as the root's direct child `c5Z`. -/
def c5G : Parser := .mk [("gopt", { name := "gopt" })] [] false true false none

/-- A lifted sub-parser whose own sub-parser is named `zchild`. -/
def c5L : Parser :=
  .mk [("lopt", { name := "lopt" })] [("zchild", c5G)] true true false none

/-- A skip-if-absent direct child named `zchild`. -/
def c5Z : Parser := .mk [("zopt", { name := "zopt" })] [] false true false none

/-- A root with the lifted child `alift` iterated before the direct child
`zchild` (matching the alphabetical `dir()` registration order). -/
def c5root : Parser :=
  .mk [] [("alift", c5L), ("zchild", c5Z)] false true false none

/-- A lifted sub-parser owning the single argument `lopt` with a string
default, used to exercise the flat merge of a lifted child's namespace. -/
def c7L : Parser :=
  .mk [("lopt", { name := "lopt", default := .vStr "d" })] [] true true false none

/-- A lifted child that opts out of skip-if-absent and whose produce
override claims nothing but appends a token to the shared unknown-token
list (the list object is shared with the caller per the produce contract). -/
def c1lift : Parser :=
  .mk [("flag", { name := "flag" })] [] true false false
     (some (fun ns u => (ns, u ++ ["extra"])))

/-- A root whose single child is the lifted `c1lift`. -/
def c1root : Parser := .mk [] [("lift", c1lift)] false true false none

/-! ### Claim theorems -/

/-- Identity of the namespace object is preserved by the builtin parser:
`argparse.parse_known_args(..., namespace=ns)` mutates and returns the very
object it was given. -/
theorem builtin_preserves_id (args : List Argument) (toks : List String)
    (ns : NsObj) : (builtinParseKnownArgs args toks ns).1.id = ns.id := by
  induction toks, ns using builtinParseKnownArgs.induct args with
  | case1 ns => simp [builtinParseKnownArgs]
  | case2 tok ns a hf v rest2 ns2 ih =>
    simp only [builtinParseKnownArgs, hf]
    exact ih
  | case3 tok ns a hf =>
    simp [builtinParseKnownArgs, hf]
  | case4 tok rest ns hf ns2 unknown heq ih =>
    simp only [builtinParseKnownArgs, hf, heq]
    rw [heq] at ih
    simpa using ih

/-- The value stored by `setEntry` at its own key. -/
theorem dlookup_setEntry_self (d : List (String × α)) (k : String) (v : α) :
    dlookup (setEntry d k v) k = Option.map (fun _ => v) (dlookup d k) := by
  induction d with
  | nil => rfl
  | cons p rest ih =>
    rcases p with ⟨k1, v1⟩
    by_cases hk : k1 = k
    · subst hk
      simp [setEntry, dlookup, ih]
    · simp [setEntry, dlookup, hk, ih]

/-- `setEntry` leaves every other key unchanged. -/
theorem dlookup_setEntry_ne (d : List (String × α)) (k : String) (v : α)
    (k' : String) (h : k ≠ k') :
    dlookup (setEntry d k v) k' = dlookup d k' := by
  induction d with
  | nil => rfl
  | cons p rest ih =>
    rcases p with ⟨k1, v1⟩
    by_cases hk : k1 = k
    · subst hk
      simp [setEntry, dlookup, h, ih]
    · simp [setEntry, dlookup, hk, ih]

/-- Lookup distributes over list append, first list first. -/
theorem dlookup_append (a b : List (String × α)) (k : String) :
    dlookup (a ++ b) k =
      (match dlookup a k with
       | some v => some v
       | none => dlookup b k) := by
  induction a with
  | nil => simp [dlookup]
  | cons p rest ih =>
    rcases p with ⟨k1, v1⟩
    by_cases hk : k1 = k
    · simp [dlookup, hk]
    · simp [dlookup, hk, ih]

/-- After `d[k] = v`, looking up `k` yields `v`. -/
theorem dlookup_dictSet_self (d : List (String × α)) (k : String) (v : α) :
    dlookup (dictSet d k v) k = some v := by
  unfold dictSet
  by_cases h : (dlookup d k).isSome
  · rw [if_pos h, dlookup_setEntry_self]
    rcases Option.isSome_iff_exists.mp h with ⟨w, hw⟩
    rw [hw]
    rfl
  · rw [if_neg h, dlookup_append]
    rw [Option.not_isSome_iff_eq_none.mp h]
    simp [dlookup]

/-- After `d[k] = v`, every other key is unchanged. -/
theorem dlookup_dictSet_ne (d : List (String × α)) (k : String) (v : α)
    (k' : String) (h : k ≠ k') :
    dlookup (dictSet d k v) k' = dlookup d k' := by
  unfold dictSet
  by_cases hs : (dlookup d k).isSome
  · rw [if_pos hs, dlookup_setEntry_ne _ _ _ _ h]
  · rw [if_neg hs, dlookup_append]
    cases hd : dlookup d k' with
    | some w => rfl
    | none => simp [dlookup, h]

/-- A key absent from the key list of an association list has no entry. -/
theorem dlookup_eq_none_of_not_mem (l : List (String × α)) (k : String)
    (h : k ∉ l.map Prod.fst) : dlookup l k = none := by
  induction l with
  | nil => rfl
  | cons p rest ih =>
    rcases p with ⟨k1, v1⟩
    simp only [List.map_cons, List.mem_cons] at h
    push_neg at h
    have hk : k1 ≠ k := fun hh => h.1 hh.symm
    simp [dlookup, hk, ih h.2]

/-- Lookup after a dict update: the update wins on its own (duplicate-free)
keys and is transparent elsewhere. -/
theorem dlookup_dictUpdate (a b : List (String × α)) (k : String)
    (hnd : (b.map Prod.fst).Nodup) :
    dlookup (dictUpdate a b) k =
      (match dlookup b k with
       | some v => some v
       | none => dlookup a k) := by
  induction b generalizing a with
  | nil => simp [dictUpdate, dlookup]
  | cons p rest ih =>
    rcases p with ⟨k1, v1⟩
    simp only [List.map_cons, List.nodup_cons] at hnd
    have hstep : dictUpdate a ((k1, v1) :: rest) =
        dictUpdate (dictSet a k1 v1) rest := by
      simp [dictUpdate]
    rw [hstep, ih (dictSet a k1 v1) hnd.2]
    by_cases hk : k1 = k
    · subst hk
      have hrest : dlookup rest k1 = none :=
        dlookup_eq_none_of_not_mem rest k1 hnd.1
      rw [hrest, dlookup_dictSet_self]
      simp [dlookup]
    · cases hr : dlookup rest k with
      | some w => simp [dlookup, hk, hr]
      | none => simp [dlookup, hk, hr, dlookup_dictSet_ne a k1 v1 k hk]

/-- C4, counterexample: the claim says a length difference between an
argument and its count-reference sibling always raises; but with
`counts = []` and `products = ['milk']` the lengths differ (0 versus 1) and
`Argument.validate` raises nothing, because `as_numerous_as` passes
vacuously when either value is falsy. -/
theorem c4_counterexample :
    pyLen (Val.vList ([] : List Val)) ≠ pyLen (Val.vList [Val.vStr "milk"])
    ∧ Argument.validate { name := "counts", as_many_as := some "products" }
        [("counts", Val.vList []), ("products", Val.vList [Val.vStr "milk"])] =
      .ok () :=
  ⟨by decide, rfl⟩

/-- C4, amended: when the argument and its count-reference sibling both hold
non-empty list values and the lengths differ, `validate` raises exactly
`<name> for <n> <sibling> provided, expected for <m>` with `n` this
argument's length and `m` the sibling's length (callable values exempt;
a falsy value on either side passes vacuously, see `c9_count_check_vacuous`). -/
theorem c4_amended (name sib : String) (xs ys : List Val)
    (fields : List (String × Val))
    (hx : dlookup fields name = some (.vList xs))
    (hy : dlookup fields sib = some (.vList ys))
    (hxe : xs ≠ []) (hye : ys ≠ [])
    (hlen : xs.length ≠ ys.length) :
    Argument.validate { name := name, as_many_as := some sib } fields =
      .error (name ++ " for " ++ toString xs.length ++ " " ++ sib ++
        " provided, expected for " ++ toString ys.length) := by
  have hxs : xs.isEmpty = false := by
    cases xs with
    | nil => exact absurd rfl hxe
    | cons a l => rfl
  have hys : ys.isEmpty = false := by
    cases ys with
    | nil => exact absurd rfl hye
    | cons a l => rfl
  have hbeq : (ys.length == xs.length) = false := by
    rw [Bool.eq_false_iff]
    simp only [ne_eq, beq_iff_eq]
    exact fun h => hlen h.symm
  have hnum : as_numerous_as (.vList xs) (.vList ys) = false := by
    simp only [as_numerous_as, pyCallable, pyTruthy, pyLen, hxs, hys,
      Bool.not_false, Bool.and_self, if_true, Bool.false_eq_true, if_false]
    exact hbeq
  simp only [Argument.validate, hx, hy, Option.getD_some, hnum,
    Bool.false_eq_true, if_false, pyLen]

/-- C4, witness: the spec example `counts=[3,1]` against `products=['milk']`
fails with exactly the message `counts for 2 products provided, expected for 1`. -/
theorem c4_amended_witness :
    Argument.validate { name := "counts", as_many_as := some "products" }
      [("products", Val.vList [Val.vStr "milk"]),
       ("counts", Val.vList [Val.vInt 3, Val.vInt 1])] =
    .error "counts for 2 products provided, expected for 1" :=
  c4_amended "counts" "products" [Val.vInt 3, Val.vInt 1] [Val.vStr "milk"]
    _ rfl rfl (List.cons_ne_nil _ _) (List.cons_ne_nil _ _) (by decide)

/-- C9: with a count-reference sibling set, `Argument.validate` raises no
error whenever the argument value is callable or either value is falsy: the
length comparison runs only when both values are truthy. -/
theorem c9_count_check_vacuous (a : Argument) (sib : String)
    (fields : List (String × Val))
    (hs : a.as_many_as = some sib)
    (h : pyCallable ((dlookup fields a.name).getD .vNone) = true
       ∨ pyTruthy ((dlookup fields a.name).getD .vNone) = false
       ∨ pyTruthy ((dlookup fields sib).getD .vNone) = false) :
    a.validate fields = .ok () := by
  have hnum : as_numerous_as ((dlookup fields a.name).getD .vNone)
      ((dlookup fields sib).getD .vNone) = true := by
    rcases h with h | h | h
    · simp [as_numerous_as, h]
    · simp [as_numerous_as, h]
    · simp [as_numerous_as, h]
  simp [Argument.validate, hs, hnum]

/-- C9, witness: a `None` value for `counts` against a non-empty `products`
passes validation. -/
theorem c9_count_check_vacuous_witness :
    Argument.validate { name := "counts", as_many_as := some "products" }
      [("counts", Val.vNone), ("products", Val.vList [Val.vStr "milk"])] =
    .ok () :=
  c9_count_check_vacuous { name := "counts", as_many_as := some "products" }
    "products" _ rfl (Or.inr (Or.inl rfl))

/-- C2, counterexample: the claim says two Arguments with one name in a
node's effective scope (own plus lifted) raise a construction-time error;
but a node declaring an own argument keyed and named `x` together with a
lifted child contributing a distinct argument keyed and named `x` constructs
without any error: the dict update `lifted_args.update(parser.arguments)`
and the merge `{**arguments, **lifted_args}` silently resolve the collision
in favour of the lifted argument. -/
theorem c2_counterexample :
    (Option.map Argument.default (dlookup c2tree.arguments "x") =
      some .vNone)
    ∧ (Option.map Argument.default (dlookup (lifted_args c2tree) "x") =
      some (.vStr "lifted"))
    ∧ Val.vNone ≠ Val.vStr "lifted"
    ∧ to_builtin c2tree = .ok ()
    ∧ Option.map Argument.default (dlookup (all_arguments c2tree) "x") =
      some (.vStr "lifted") :=
  ⟨rfl, rfl, fun h => Val.noConfusion h, rfl, rfl⟩

/-- C2, amended: two optional Arguments with the same name under distinct
attribute keys do raise a construction-time error (the builtin argparse
parser rejects the duplicated `--name` option string when `to_builtin_parser`
attaches them), but an own argument and a lifted argument sharing one
attribute key raise nothing: the lifted argument silently replaces the own
one in `all_arguments` and construction succeeds. -/
theorem c2_amended (a b : Argument) (k : String)
    (ha : a.optional = true) (hb : b.optional = true) (hn : b.name = a.name) :
    (∃ msg, addArguments [a, b] [] = .error msg)
    ∧ all_arguments
        (.mk [(k, a)] [("sub", .mk [(k, b)] [] true true false none)]
          false true false none) = [(k, b)]
    ∧ to_builtin
        (.mk [(k, a)] [("sub", .mk [(k, b)] [] true true false none)]
          false true false none) = .ok () := by
  have hmerge : all_arguments
      (.mk [(k, a)] [("sub", .mk [(k, b)] [] true true false none)]
        false true false none) = [(k, b)] := by
    simp [all_arguments, lifted_args, dictUpdate, dictSet, setEntry,
      Parser.arguments, Parser.subparsers, Parser.lifted]
  refine ⟨?_, hmerge, ?_⟩
  · have hmem : ("--" ++ b.name) ∈ b.optionStrings := by
      simp only [Argument.optionStrings, Argument.cliArgs, hb, if_true]
      cases b.short <;> simp
    have hseen : ("--" ++ b.name) ∈ a.optionStrings := by
      simp only [Argument.optionStrings, Argument.cliArgs, ha, if_true, hn]
      cases a.short <;> simp
    have hany : (b.optionStrings.any
        (fun s => decide (s ∈ ([] : List String) ++ a.optionStrings))) = true := by
      rw [List.any_eq_true]
      exact ⟨"--" ++ b.name, hmem, by simpa using hseen⟩
    refine ⟨"conflicting option string: " ++ joinSpace b.optionStrings, ?_⟩
    simp only [addArguments]
    rw [if_neg (by simp)]
    rw [if_pos hany]
  · simp only [to_builtin, argumentList, hmerge, List.map_cons, List.map_nil]
    simp [addArguments]

/-- C2, amended witness: instantiated at two concrete optional arguments both
named `x`, under keys `k1`/`k2` for the conflict half and key `x` for the
silent-shadowing half. -/
theorem c2_amended_witness :
    (∃ msg, addArguments [{ name := "x" },
      { name := "x", default := Val.vStr "lifted" }] [] = .error msg)
    ∧ all_arguments
        (.mk [("x", { name := "x" })]
          [("sub", .mk [("x", { name := "x", default := Val.vStr "lifted" })]
            [] true true false none)] false true false none) =
        [("x", { name := "x", default := Val.vStr "lifted" })]
    ∧ to_builtin
        (.mk [("x", { name := "x" })]
          [("sub", .mk [("x", { name := "x", default := Val.vStr "lifted" })]
            [] true true false none)] false true false none) = .ok () :=
  c2_amended { name := "x" } { name := "x", default := Val.vStr "lifted" }
    "x" rfl rfl rfl

/-- C3, counterexample: the name `child` appears among the tokens but no
tokens follow it, and the grouper creates no group for it (the named-group
map is empty), so skip-if-absent fires: parsing `['child']` against a root
whose only child is `child` leaves `namespace.child = None` with the child
never invoked (the only events are the root's own step and the skip marker). -/
theorem c3_counterexample :
    "child" ∈ ["child"]
    ∧ (group_arguments ["child"] ["child"]).1 = []
    ∧ parse_known_args 3 c3tree [] 0 ["child"] =
        (.ok ⟨0, [("child", .vNone)]⟩ [],
         [.childSkipped [] "child", .ownParsed [] [("child", .vNone)],
          .validated [], .produced [] [("child", .vNone)]]) :=
  ⟨by decide, rfl, rfl⟩

/-- C3, amended: the grouper creates a group entry for a declared name only
when at least one non-name token follows an occurrence of it; a name present
with no following tokens yields no entry (indistinguishable from an absent
name), while a name followed by a token yields that token's group. -/
theorem c3_amended (names : List String) (n tok : String)
    (hn : n ∈ names) (ht : tok ∉ names) :
    (group_arguments [n] names).1 = []
    ∧ dlookup (group_arguments [n, tok] names).1 n = some [tok] := by
  constructor
  · simp [group_arguments, groupArgumentsGo, hn]
  · simp [group_arguments, groupArgumentsGo, hn, ht, dictSet, dlookup]

/-- C3, amended witness: instantiated at `names = ['child']` with the
follower token `x`. -/
theorem c3_amended_witness :
    (group_arguments ["child"] ["child"]).1 = []
    ∧ dlookup (group_arguments ["child", "x"] ["child"]).1 "child" =
        some ["x"] :=
  c3_amended ["child"] "child" "x" (by decide) (by decide)

/-- C8: a help flag anywhere in the raw input makes `parse_args` terminate
successfully (status 0) after rendering the usage, with an empty event trace:
none of the custom steps (grouping events, child recursion, validation,
produce) ever run. -/
theorem c8_help_exits_zero (fuel : Nat) (t : Parser) (nid : Nat)
    (args : List String) (h : "-h" ∈ args ∨ "--help" ∈ args) :
    parse_args fuel t nid args = (.exit 0 "usage", []) := by
  have hb : (args.contains "-h" || args.contains "--help") = true := by
    rcases h with h | h <;> simp [h]
  have hb2 : ((args.contains "-h" || args.contains "--help")
      || args.isEmpty) = true := by
    rw [hb]
    exact Bool.true_or _
  simp only [parse_args, builtinHelpExit]
  rw [hb2, hb]
  simp

/-- C8, witness: `-h` as the only token against the one-child demo tree. -/
theorem c8_help_exits_zero_witness :
    parse_args 5 c3tree 0 ["-h"] = (.exit 0 "usage", []) :=
  c8_help_exits_zero 5 c3tree 0 ["-h"] (Or.inl (by decide))

/-- C10: `parse_single_level` asserts `opts is namespace`.  When the produce
hook returns an object with a different identity (and the short-circuit does
not fire and validation passes, so produce actually runs), the result is the
uncaught `assertFail` outcome, which in particular is not an `exit` routed
through the error reporter; and every successful `parse_single_level` run of
any parser returns an object with the identity of the parser's own namespace. -/
theorem c10_produce_assert (t : Parser) (path : List String)
    (ungrouped : List String) (ns : NsObj)
    (f : NsObj → List String → NsObj × List String)
    (hhook : t.hook = some f)
    (hfresh : ∀ m u, (f m u).1.id ≠ m.id)
    (hshort : (t.lifted && t.skipIfAbsent && ungrouped.isEmpty) = false)
    (hval : validateAll (argumentList t)
      (builtinParseKnownArgs (argumentList t) ungrouped ns).1.fields = .ok ()) :
    (parse_single_level t path ungrouped ns).1 = .assertFail
    ∧ (∀ c msg, (parse_single_level t path ungrouped ns).1 ≠ .exit c msg)
    ∧ (∀ (t2 : Parser) (ns2 : NsObj) (u2 : List String) (tr2 : List Event),
        parse_single_level t2 path ungrouped ns = (.ok ns2 u2, tr2) →
          ns2.id = ns.id) := by
  have h1 : (parse_single_level t path ungrouped ns).1 = .assertFail := by
    rcases hB : builtinParseKnownArgs (argumentList t) ungrouped ns with ⟨ns1, unk⟩
    rw [hB] at hval
    simp only [parse_single_level, hshort, Bool.false_eq_true, if_false, hB,
      hval, hhook, applyHook]
    rcases hF : f ns1 unk with ⟨opts, u2⟩
    have hne : opts.id ≠ ns1.id := by
      have := hfresh ns1 unk
      rw [hF] at this
      simpa using this
    simp [hF, hne]
  refine ⟨h1, ?_, ?_⟩
  · intro c msg h
    rw [h1] at h
    exact Outcome.noConfusion h
  · intro t2 ns2 u2 tr2 h
    cases hc : (t2.lifted && t2.skipIfAbsent && ungrouped.isEmpty) with
    | true =>
      simp only [parse_single_level, hc, if_true] at h
      have hfst := congrArg Prod.fst h
      simp only at hfst
      injection hfst with hn hu
      rw [← hn]
    | false =>
      rcases hB : builtinParseKnownArgs (argumentList t2) ungrouped ns with ⟨ns1, unk⟩
      have hid : ns1.id = ns.id := by
        have := builtin_preserves_id (argumentList t2) ungrouped ns
        rw [hB] at this
        simpa using this
      simp only [parse_single_level, hc, Bool.false_eq_true, if_false, hB] at h
      cases hV : validateAll (argumentList t2) ns1.fields with
      | error e =>
        rw [hV] at h
        have hfst := congrArg Prod.fst h
        simp only at hfst
        exact Outcome.noConfusion hfst
      | ok u =>
        rw [hV] at h
        rcases hA : applyHook t2.hook ns1 unk with ⟨opts, u3⟩
        rw [hA] at h
        by_cases hI : opts.id = ns1.id
        · rw [if_pos hI] at h
          have hfst := congrArg Prod.fst h
          simp only at hfst
          injection hfst with ho hu
          rw [← ho, hI, hid]
        · rw [if_neg hI] at h
          have hfst := congrArg Prod.fst h
          simp only at hfst
          exact Outcome.noConfusion hfst

/-- C10, witness: the fresh-object override on a childless node trips the
assertion. -/
theorem c10_produce_assert_witness :
    (parse_single_level c10demo [] [] ⟨5, []⟩).1 = .assertFail :=
  (c10_produce_assert c10demo [] [] ⟨5, []⟩ c10hook rfl
    (fun m _ => Nat.succ_ne_self m.id) rfl rfl).1

/-- One unfolding of the depth-first branch of `parse_known_args`: the child
loop runs first on the freshly initialized namespace, the single-level step
runs afterwards on the loop's result. -/
theorem parse_step_depth_first (fuel : Nat) (t : Parser) (path : List String)
    (nid : Nat) (args : List String) (g : List (String × List String))
    (ung : List String)
    (hb : t.breadthFirst = false)
    (hg : group_arguments args (all_subparser_names t) = (g, ung)) :
    runCall (fuel + 1) (.parse t path nid args) =
      (match runCall fuel (.children t.subparsers path nid 0 g ⟨nid, initFields t⟩) with
       | (.ok ns1 _, tr1) =>
         (match parse_single_level t path ung ns1 with
          | (.ok ns2 unknown, tr2) => (.ok ns2 unknown, tr1 ++ tr2)
          | (out, tr2) => (out, tr1 ++ tr2))
       | bad => bad) := by
  rw [runCall.eq_2, hg]
  simp only [hb, Bool.false_eq_true, if_false]

/-- One unfolding of the child loop at a lifted child whose recursive parse
succeeded: the child fields are merged flatly into the namespace and the loop
continues when the child leftover is empty, while a non-empty child leftover
reports a fatal `unrecognized arguments` error. -/
theorem runChildren_lifted_step (fuel : Nat) (name : String) (c : Parser)
    (rest : List (String × Parser)) (path : List String) (nid i : Nat)
    (g : List (String × List String)) (ns cns : NsObj) (np : List String)
    (ctr : List Event)
    (hl : c.lifted = true)
    (hres : runCall fuel (.parse c (path ++ [name]) (nid * 17 + i + 1)
      (liftedTokens (c.subparsers.map Prod.fst) g).1) = (.ok cns np, ctr)) :
    runCall (fuel + 1) (.children ((name, c) :: rest) path nid i g ns) =
      (if np.isEmpty then
        (match runCall fuel (.children rest path nid (i + 1)
            (liftedTokens (c.subparsers.map Prod.fst) g).2
            ⟨ns.id, dictUpdate ns.fields cns.fields⟩) with
         | (out, tr2) => (out, ctr ++ tr2))
       else (.exit 2 ("unrecognized arguments: " ++ joinSpace np), ctr)) := by
  rw [runCall.eq_4]
  rcases hlt : liftedTokens (c.subparsers.map Prod.fst) g with ⟨toks, g2⟩
  rw [hlt] at hres
  simp only [hl, if_true, hlt, hres]

/-- C1, amended: leftover tokens returned by a lifted child's recursive parse
never join the parent's returned leftover.  A non-empty lifted-child leftover
makes the parent (shown for the default depth-first order) abort with a fatal
`unrecognized arguments` error reported through the child, exactly as for
non-lifted children; with an empty lifted-child leftover the parent's result
is built from its own single-level step alone, so the returned leftover is
the node's own unknown tokens only. -/
theorem c1_amended (fuel : Nat) (pargs : List (String × Argument))
    (name : String) (c : Parser) (plifted pskip : Bool)
    (phook : Option (NsObj → List String → NsObj × List String))
    (path : List String) (nid : Nat) (args : List String)
    (cns : NsObj) (lv : List String) (ctr : List Event)
    (hl : c.lifted = true)
    (hres : parse_known_args (fuel + 1) c (path ++ [name]) (nid * 17 + 0 + 1)
      (liftedTokens (c.subparsers.map Prod.fst)
        (group_arguments args (all_subparser_names
          (.mk pargs [(name, c)] plifted pskip false phook))).1).1 =
      (.ok cns lv, ctr)) :
    (lv ≠ [] → parse_known_args (fuel + 1 + 1 + 1)
        (.mk pargs [(name, c)] plifted pskip false phook) path nid args =
      (.exit 2 ("unrecognized arguments: " ++ joinSpace lv), ctr))
    ∧ (lv = [] → parse_known_args (fuel + 1 + 1 + 1)
        (.mk pargs [(name, c)] plifted pskip false phook) path nid args =
      (match parse_single_level
          (.mk pargs [(name, c)] plifted pskip false phook) path
          (group_arguments args (all_subparser_names
            (.mk pargs [(name, c)] plifted pskip false phook))).2
          ⟨nid, dictUpdate
            (initFields (.mk pargs [(name, c)] plifted pskip false phook))
            cns.fields⟩ with
       | (.ok ns2 unknown, tr2) => (.ok ns2 unknown, ctr ++ tr2)
       | (out, tr2) => (out, ctr ++ tr2))) := by
  have hch := runChildren_lifted_step (fuel + 1) name c [] path nid 0
    (group_arguments args (all_subparser_names
      (.mk pargs [(name, c)] plifted pskip false phook))).1
    ⟨nid, initFields (.mk pargs [(name, c)] plifted pskip false phook)⟩
    cns lv ctr hl hres
  rw [runCall.eq_3] at hch
  have hmain := parse_step_depth_first (fuel + 1 + 1)
    (.mk pargs [(name, c)] plifted pskip false phook) path nid args
    (group_arguments args (all_subparser_names
      (.mk pargs [(name, c)] plifted pskip false phook))).1
    (group_arguments args (all_subparser_names
      (.mk pargs [(name, c)] plifted pskip false phook))).2
    rfl rfl
  simp only [parse_known_args]
  rw [hmain]
  simp only [Parser.subparsers]
  rw [hch]
  constructor
  · intro hlv
    rw [if_neg (by simpa using hlv)]
  · intro hlv
    subst hlv
    simp only [List.isEmpty_nil, if_true, List.append_nil]

/-- C1, amended witness: the lifted child `c1lift` returns the leftover
`extra`, and the parent parse aborts with status 2 through the child. -/
theorem c1_amended_witness :
    parse_known_args 4 c1root [] 0 [] =
      (.exit 2 "unrecognized arguments: extra",
       [.ownParsed ["lift"] [("flag", .vNone)], .validated ["lift"],
        .produced ["lift"] [("flag", .vNone)]]) :=
  (c1_amended 1 [] "lift" c1lift false true none [] 0 []
    ⟨1, [("flag", .vNone)]⟩ ["extra"]
    [.ownParsed ["lift"] [("flag", .vNone)], .validated ["lift"],
     .produced ["lift"] [("flag", .vNone)]] rfl rfl).1
    (by simp)

/-- C7: processing a lifted child whose recursive parse succeeded with no
leftover copies every field of the lifted child's namespace directly into
the parent's flat namespace (the loop continues on the merged namespace),
keys outside the child's fields are untouched, and in particular no entry
keyed by the lifted child's own attachment name is created: the lookup at
that name is unchanged whenever the child's namespace has no field of that
name (the merge stores no nested namespace for the child itself). -/
theorem c7_lifted_flat_merge (fuel : Nat) (name : String) (c : Parser)
    (path : List String) (nid i : Nat) (g : List (String × List String))
    (ns cns : NsObj) (ctr : List Event)
    (hl : c.lifted = true)
    (hres : parse_known_args (fuel + 1) c (path ++ [name]) (nid * 17 + i + 1)
      (liftedTokens (c.subparsers.map Prod.fst) g).1 = (.ok cns [], ctr))
    (hnd : (cns.fields.map Prod.fst).Nodup) :
    runChildren (fuel + 1 + 1) [(name, c)] path nid i g ns =
      (.ok ⟨ns.id, dictUpdate ns.fields cns.fields⟩ [], ctr)
    ∧ (∀ k v, dlookup cns.fields k = some v →
        dlookup (dictUpdate ns.fields cns.fields) k = some v)
    ∧ (∀ k, dlookup cns.fields k = none →
        dlookup (dictUpdate ns.fields cns.fields) k = dlookup ns.fields k)
    ∧ (dlookup cns.fields name = none →
        dlookup (dictUpdate ns.fields cns.fields) name =
          dlookup ns.fields name) := by
  have hch := runChildren_lifted_step (fuel + 1) name c [] path nid i g ns
    cns [] ctr hl hres
  rw [runCall.eq_3] at hch
  simp only [List.isEmpty_nil, if_true, List.append_nil] at hch
  refine ⟨?_, ?_, ?_, ?_⟩
  · simp only [runChildren]
    rw [hch]
  · intro k v hkv
    rw [dlookup_dictUpdate _ _ _ hnd, hkv]
  · intro k hk
    rw [dlookup_dictUpdate _ _ _ hnd, hk]
  · intro hk
    rw [dlookup_dictUpdate _ _ _ hnd, hk]

/-- C7, witness: merging the lifted `c7L` copies its `lopt` field flatly and
creates no `lift` entry in the parent namespace. -/
theorem c7_lifted_flat_merge_witness :
    runChildren 3 [("lift", c7L)] [] 0 0 [] ⟨0, [("own", Val.vNone)]⟩ =
      (.ok ⟨0, dictUpdate [("own", Val.vNone)] [("lopt", Val.vStr "d")]⟩ [], [])
    ∧ dlookup (dictUpdate [("own", Val.vNone)] [("lopt", Val.vStr "d")]) "lift" =
        dlookup [("own", Val.vNone)] "lift" :=
  have h := c7_lifted_flat_merge 1 "lift" c7L [] 0 0 [] ⟨0, [("own", Val.vNone)]⟩
    ⟨1, [("lopt", Val.vStr "d")]⟩ [] rfl rfl (by simp)
  ⟨h.1, h.2.2.2 rfl⟩

/-- Every event a single-level step emits is an own-step event at the node path. -/
theorem psl_events (t : Parser) (path : List String) (ung : List String)
    (ns : NsObj) (e : Event)
    (he : e ∈ (parse_single_level t path ung ns).2) : isOwnStep path e := by
  unfold parse_single_level at he
  by_cases hc : (t.lifted && t.skipIfAbsent && ung.isEmpty) = true
  · rw [if_pos hc] at he
    simp at he
  · rw [if_neg hc] at he
    rcases hB : builtinParseKnownArgs (argumentList t) ung ns with ⟨ns1, unk⟩
    rw [hB] at he
    simp only at he
    cases hV : validateAll (argumentList t) ns1.fields with
    | error msg =>
      rw [hV] at he
      simp only [List.mem_cons, List.mem_singleton] at he
      rcases he with h | h | h
      · subst h; exact rfl
      · subst h; exact rfl
      · exact absurd h (by simp)
    | ok u =>
      rw [hV] at he
      rcases hA : applyHook t.hook ns1 unk with ⟨opts, u2⟩
      rw [hA] at he
      by_cases hI : opts.id = ns1.id
      · rw [if_pos hI] at he
        simp only [List.mem_cons, List.mem_singleton] at he
        rcases he with h | h | h | h
        · subst h; exact rfl
        · subst h; exact rfl
        · subst h; exact rfl
        · exact absurd h (by simp)
      · rw [if_neg hI] at he
        simp only [List.mem_cons, List.mem_singleton] at he
        rcases he with h | h | h | h
        · subst h; exact rfl
        · subst h; exact rfl
        · subst h; exact rfl
        · exact absurd h (by simp)

/-- The fields snapshot in a produced event of the single-level step is the
namespace as updated by the builtin own-argument parse: exactly what the
produce hook observes. -/
theorem psl_produced (t : Parser) (path : List String) (ung : List String)
    (ns : NsObj) (flds : List (String × Val))
    (he : Event.produced path flds ∈ (parse_single_level t path ung ns).2) :
    flds = (builtinParseKnownArgs (argumentList t) ung ns).1.fields := by
  unfold parse_single_level at he
  by_cases hc : (t.lifted && t.skipIfAbsent && ung.isEmpty) = true
  · rw [if_pos hc] at he
    simp at he
  · rw [if_neg hc] at he
    rcases hB : builtinParseKnownArgs (argumentList t) ung ns with ⟨ns1, unk⟩
    rw [hB] at he
    simp only at he
    cases hV : validateAll (argumentList t) ns1.fields with
    | error msg =>
      rw [hV] at he
      simp only [List.mem_cons, List.mem_singleton] at he
      rcases he with h | h | h
      · exact absurd h (by simp)
      · exact absurd h (by simp)
      · exact absurd h (by simp)
    | ok u =>
      rw [hV] at he
      rcases hA : applyHook t.hook ns1 unk with ⟨opts, u2⟩
      rw [hA] at he
      have hmem : Event.produced path flds ∈
          [Event.ownParsed path ns1.fields, Event.validated path,
           Event.produced path ns1.fields] := by
        by_cases hI : opts.id = ns1.id
        · rw [if_pos hI] at he; exact he
        · rw [if_neg hI] at he; exact he
      simp at hmem
      exact hmem

/-- Any event of a child node (own or child step) is a child-step event of
the parent. -/
theorem childStep_of_deeper (path : List String) (name : String) (e : Event)
    (h : isOwnStep (path ++ [name]) e ∨ isChildStep (path ++ [name]) e) :
    isChildStep path e := by
  rcases h with h | h
  · right
    cases e with
    | ownParsed p f => exact ⟨name, [], by simpa [eventPath] using h⟩
    | validated p => exact ⟨name, [], by simpa [eventPath] using h⟩
    | produced p f => exact ⟨name, [], by simpa [eventPath] using h⟩
    | childSkipped p n => exact absurd h (by simp [isOwnStep])
  · rcases h with ⟨nm, rfl⟩ | ⟨nm, q, hq⟩
    · right
      exact ⟨name, [], by simp [eventPath]⟩
    · right
      exact ⟨name, nm :: q, by rw [hq, List.append_assoc]; rfl⟩

/-- A produced event at the node path itself is never a child-step event. -/
theorem produced_not_childStep (path : List String) (flds : List (String × Val))
    (h : isChildStep path (.produced path flds)) : False := by
  rcases h with ⟨nm, hn⟩ | ⟨nm, q, hq⟩
  · exact Event.noConfusion hn
  · simp only [eventPath] at hq
    have := congrArg List.length hq
    simp at this

/-- The builtin own-argument parse writes only keys named by its declared
arguments. -/
theorem builtin_preserves_other_keys (args : List Argument) (toks : List String)
    (ns : NsObj) (k : String) (hk : ∀ a ∈ args, a.name ≠ k) :
    dlookup (builtinParseKnownArgs args toks ns).1.fields k =
      dlookup ns.fields k := by
  induction toks, ns using builtinParseKnownArgs.induct args with
  | case1 ns => simp [builtinParseKnownArgs]
  | case2 tok ns a hf v rest2 ns2 ih =>
    simp only [builtinParseKnownArgs, hf]
    have ha : a ∈ args := List.mem_of_find?_eq_some hf
    rw [ih]
    exact dlookup_dictSet_ne _ _ _ _ (hk a ha)
  | case3 tok ns a hf =>
    simp [builtinParseKnownArgs, hf]
  | case4 tok rest ns hf ns2 unknown heq ih =>
    simp only [builtinParseKnownArgs, hf, heq]
    rw [heq] at ih
    simpa using ih

/-- Event discipline of the recursive protocol: a parse call emits only
own-step or child-step events of its node, and a child-loop call emits only
child-step events. -/
theorem runCall_paths (fuel : Nat) :
    (∀ t path nid args e, e ∈ (runCall fuel (.parse t path nid args)).2 →
      isOwnStep path e ∨ isChildStep path e)
    ∧ (∀ cs path nid i g ns e,
        e ∈ (runCall fuel (.children cs path nid i g ns)).2 →
      isChildStep path e) := by
  induction fuel with
  | zero =>
    constructor
    · intro t path nid args e he
      simp [runCall] at he
    · intro cs path nid i g ns e he
      simp [runCall] at he
  | succ f ih =>
    obtain ⟨ihp, ihc⟩ := ih
    constructor
    · intro t path nid args e he
      rw [runCall.eq_2] at he
      rcases hg : group_arguments args (all_subparser_names t) with ⟨g, ung⟩
      rw [hg] at he
      simp only at he
      cases hb : t.breadthFirst with
      | true =>
        simp only [hb, if_true] at he
        rcases hp : parse_single_level t path ung ⟨nid, initFields t⟩ with ⟨po, ptr⟩
        rw [hp] at he
        cases po with
        | ok ns1 unknown =>
          simp only at he
          rcases hc2 : runCall f (.children t.subparsers path nid 0 g ns1) with ⟨co, ctr2⟩
          rw [hc2] at he
          have htr : e ∈ ptr ++ ctr2 := by
            cases co <;> simpa using he
          rcases List.mem_append.mp htr with hel | her
          · exact Or.inl (psl_events t path ung ⟨nid, initFields t⟩ e (by rw [hp]; exact hel))
          · exact Or.inr (ihc t.subparsers path nid 0 g ns1 e (by rw [hc2]; exact her))
        | exit code msg =>
          simp only at he
          exact Or.inl (psl_events t path ung ⟨nid, initFields t⟩ e (by rw [hp]; exact he))
        | assertFail =>
          simp only at he
          exact Or.inl (psl_events t path ung ⟨nid, initFields t⟩ e (by rw [hp]; exact he))
        | outOfFuel =>
          simp only at he
          exact Or.inl (psl_events t path ung ⟨nid, initFields t⟩ e (by rw [hp]; exact he))
      | false =>
        simp only [hb, Bool.false_eq_true, if_false] at he
        rcases hc2 : runCall f (.children t.subparsers path nid 0 g ⟨nid, initFields t⟩) with ⟨co, ctr2⟩
        rw [hc2] at he
        cases co with
        | ok ns1 unknown =>
          simp only at he
          rcases hp : parse_single_level t path ung ns1 with ⟨po, ptr⟩
          rw [hp] at he
          have htr : e ∈ ctr2 ++ ptr := by
            cases po <;> simpa using he
          rcases List.mem_append.mp htr with hel | her
          · exact Or.inr (ihc t.subparsers path nid 0 g ⟨nid, initFields t⟩ e (by rw [hc2]; exact hel))
          · exact Or.inl (psl_events t path ung ns1 e (by rw [hp]; exact her))
        | exit code msg =>
          simp only at he
          exact Or.inr (ihc t.subparsers path nid 0 g ⟨nid, initFields t⟩ e (by rw [hc2]; exact he))
        | assertFail =>
          simp only at he
          exact Or.inr (ihc t.subparsers path nid 0 g ⟨nid, initFields t⟩ e (by rw [hc2]; exact he))
        | outOfFuel =>
          simp only at he
          exact Or.inr (ihc t.subparsers path nid 0 g ⟨nid, initFields t⟩ e (by rw [hc2]; exact he))
    · intro cs path nid i g ns e he
      cases cs with
      | nil =>
        rw [runCall.eq_3] at he
        simp at he
      | cons p rest =>
        rcases p with ⟨name, c⟩
        rw [runCall.eq_4] at he
        cases hl : c.lifted with
        | true =>
          simp only [hl, if_true] at he
          rcases hlt : liftedTokens (c.subparsers.map Prod.fst) g with ⟨toks, g2⟩
          rw [hlt] at he
          simp only at he
          rcases hr : runCall f (.parse c (path ++ [name]) (nid * 17 + i + 1) toks) with ⟨ro, rtr⟩
          rw [hr] at he
          cases ro with
          | ok cns np =>
            simp only at he
            by_cases hnp : np.isEmpty = true
            · simp only [hnp, if_true] at he
              rcases hcont : runCall f (.children rest path nid (i + 1) g2
                  ⟨ns.id, dictUpdate ns.fields cns.fields⟩) with ⟨co, ctr2⟩
              rw [hcont] at he
              have htr : e ∈ rtr ++ ctr2 := by simpa using he
              rcases List.mem_append.mp htr with hel | her
              · exact childStep_of_deeper path name e
                  (ihp c (path ++ [name]) (nid * 17 + i + 1) toks e (by rw [hr]; exact hel))
              · exact ihc rest path nid (i + 1) g2 _ e (by rw [hcont]; exact her)
            · simp only [hnp, Bool.false_eq_true, if_false] at he
              exact childStep_of_deeper path name e
                (ihp c (path ++ [name]) (nid * 17 + i + 1) toks e (by rw [hr]; exact he))
          | exit code msg =>
            simp only at he
            exact childStep_of_deeper path name e
              (ihp c (path ++ [name]) (nid * 17 + i + 1) toks e (by rw [hr]; exact he))
          | assertFail =>
            simp only at he
            exact childStep_of_deeper path name e
              (ihp c (path ++ [name]) (nid * 17 + i + 1) toks e (by rw [hr]; exact he))
          | outOfFuel =>
            simp only at he
            exact childStep_of_deeper path name e
              (ihp c (path ++ [name]) (nid * 17 + i + 1) toks e (by rw [hr]; exact he))
        | false =>
          simp only [hl, Bool.false_eq_true, if_false] at he
          by_cases hskip : (c.skipIfAbsent && (dlookup g name).isNone) = true
          · simp only [hskip, if_true] at he
            rcases hcont : runCall f (.children rest path nid (i + 1) g
                ⟨ns.id, dictSet ns.fields name .vNone⟩) with ⟨co, ctr2⟩
            rw [hcont] at he
            simp only [List.mem_cons] at he
            rcases he with he | he
            · exact Or.inl ⟨name, he⟩
            · exact ihc rest path nid (i + 1) g _ e (by rw [hcont]; exact he)
          · simp only [hskip, Bool.false_eq_true, if_false] at he
            rcases hgg : groupsGet g name with ⟨toks, g2⟩
            rw [hgg] at he
            simp only at he
            rcases hr : runCall f (.parse c (path ++ [name]) (nid * 17 + i + 1) toks) with ⟨ro, rtr⟩
            rw [hr] at he
            cases ro with
            | ok cns np =>
              simp only at he
              by_cases hnp : np.isEmpty = true
              · simp only [hnp, if_true] at he
                rcases hcont : runCall f (.children rest path nid (i + 1) g2
                    ⟨ns.id, dictSet ns.fields name (.vNs cns.id cns.fields)⟩) with ⟨co, ctr2⟩
                rw [hcont] at he
                have htr : e ∈ rtr ++ ctr2 := by simpa using he
                rcases List.mem_append.mp htr with hel | her
                · exact childStep_of_deeper path name e
                    (ihp c (path ++ [name]) (nid * 17 + i + 1) toks e (by rw [hr]; exact hel))
                · exact ihc rest path nid (i + 1) g2 _ e (by rw [hcont]; exact her)
              · simp only [hnp, Bool.false_eq_true, if_false] at he
                exact childStep_of_deeper path name e
                  (ihp c (path ++ [name]) (nid * 17 + i + 1) toks e (by rw [hr]; exact he))
            | exit code msg =>
              simp only at he
              exact childStep_of_deeper path name e
                (ihp c (path ++ [name]) (nid * 17 + i + 1) toks e (by rw [hr]; exact he))
            | assertFail =>
              simp only at he
              exact childStep_of_deeper path name e
                (ihp c (path ++ [name]) (nid * 17 + i + 1) toks e (by rw [hr]; exact he))
            | outOfFuel =>
              simp only at he
              exact childStep_of_deeper path name e
                (ihp c (path ++ [name]) (nid * 17 + i + 1) toks e (by rw [hr]; exact he))

/-- One unfolding of the breadth-first branch of `parse_known_args`: the
single-level step runs first on the freshly initialized namespace, the child
loop runs afterwards on its result. -/
theorem parse_step_breadth_first (fuel : Nat) (t : Parser) (path : List String)
    (nid : Nat) (args : List String) (g : List (String × List String))
    (ung : List String)
    (hb : t.breadthFirst = true)
    (hg : group_arguments args (all_subparser_names t) = (g, ung)) :
    runCall (fuel + 1) (.parse t path nid args) =
      (match parse_single_level t path ung ⟨nid, initFields t⟩ with
       | (.ok ns1 unknown, tr1) =>
         (match runCall fuel (.children t.subparsers path nid 0 g ns1) with
          | (.ok ns2 _, tr2) => (.ok ns2 unknown, tr1 ++ tr2)
          | (out, tr2) => (out, tr1 ++ tr2))
       | bad => bad) := by
  rw [runCall.eq_2, hg]
  simp only [hb, if_true]

/-- C6: the parsing-order flag fully determines the order of the own-argument
step relative to the child step.  Depth-first (flag false, the default): the
trace decomposes into child-step events followed by own-step events, and any
produced event of this node snapshots the namespace that resulted from the
completed child loop (updated by the builtin own parse), so the produce hook
observes the already-populated child entries at every key the own arguments
do not touch.  Breadth-first: the own-step events come first, and the
produced snapshot is built from the freshly initialized namespace, before any
child is parsed. -/
theorem c6_parsing_order (fuel : Nat) (t : Parser) (path : List String) (nid : Nat)
    (args : List String) :
    (t.breadthFirst = false →
      ∃ trC trO, (parse_known_args (fuel + 1) t path nid args).2 = trC ++ trO
        ∧ (∀ e ∈ trC, isChildStep path e)
        ∧ (∀ e ∈ trO, isOwnStep path e)
        ∧ ∀ flds, Event.produced path flds ∈ trC ++ trO →
            ∃ ns1 u1, runChildren fuel t.subparsers path nid 0
                (group_arguments args (all_subparser_names t)).1
                ⟨nid, initFields t⟩ = (.ok ns1 u1, trC)
              ∧ flds = (builtinParseKnownArgs (argumentList t)
                  (group_arguments args (all_subparser_names t)).2 ns1).1.fields
              ∧ ∀ k, (∀ a ∈ argumentList t, a.name ≠ k) →
                  dlookup flds k = dlookup ns1.fields k)
    ∧ (t.breadthFirst = true →
      ∃ trO trC, (parse_known_args (fuel + 1) t path nid args).2 = trO ++ trC
        ∧ (∀ e ∈ trO, isOwnStep path e)
        ∧ (∀ e ∈ trC, isChildStep path e)
        ∧ ∀ flds, Event.produced path flds ∈ trO ++ trC →
            flds = (builtinParseKnownArgs (argumentList t)
              (group_arguments args (all_subparser_names t)).2
              ⟨nid, initFields t⟩).1.fields
            ∧ ∀ k, (∀ a ∈ argumentList t, a.name ≠ k) →
                dlookup flds k = dlookup (initFields t) k) := by
  constructor
  · intro hb
    have hmain := parse_step_depth_first fuel t path nid args
      (group_arguments args (all_subparser_names t)).1
      (group_arguments args (all_subparser_names t)).2 hb rfl
    rcases hc2 : runCall fuel (.children t.subparsers path nid 0
      (group_arguments args (all_subparser_names t)).1 ⟨nid, initFields t⟩) with ⟨co, ctr2⟩
    cases co with
    | ok ns1 u1 =>
      rcases hp : parse_single_level t path
        (group_arguments args (all_subparser_names t)).2 ns1 with ⟨po, ptr⟩
      have htr : (parse_known_args (fuel + 1) t path nid args).2 = ctr2 ++ ptr := by
        simp only [parse_known_args]
        rw [hmain, hc2]
        simp only
        rw [hp]
        cases po <;> rfl
      refine ⟨ctr2, ptr, htr, ?_, ?_, ?_⟩
      · intro e hel
        exact (runCall_paths fuel).2 t.subparsers path nid 0 _ _ e (by rw [hc2]; exact hel)
      · intro e her
        exact psl_events t path _ ns1 e (by rw [hp]; exact her)
      · intro flds hf
        rcases List.mem_append.mp hf with hfl | hfr
        · exact absurd ((runCall_paths fuel).2 t.subparsers path nid 0 _ _ _
            (by rw [hc2]; exact hfl)) (fun h => produced_not_childStep path flds h)
        · have hfe := psl_produced t path _ ns1 flds (by rw [hp]; exact hfr)
          refine ⟨ns1, u1, ?_, hfe, ?_⟩
          · simpa [runChildren] using hc2
          · intro k hk
            rw [hfe]
            exact builtin_preserves_other_keys _ _ _ _ hk
    | exit code msg =>
      have htr : (parse_known_args (fuel + 1) t path nid args).2 = ctr2 ++ [] := by
        simp only [parse_known_args]
        rw [hmain, hc2]
        simp [List.append_nil]
      refine ⟨ctr2, [], htr, ?_, ?_, ?_⟩
      · intro e hel
        exact (runCall_paths fuel).2 t.subparsers path nid 0 _ _ e (by rw [hc2]; exact hel)
      · intro e her
        exact absurd her (by simp)
      · intro flds hf
        rw [List.append_nil] at hf
        exact absurd ((runCall_paths fuel).2 t.subparsers path nid 0 _ _ _
          (by rw [hc2]; exact hf)) (fun h => produced_not_childStep path flds h)
    | assertFail =>
      have htr : (parse_known_args (fuel + 1) t path nid args).2 = ctr2 ++ [] := by
        simp only [parse_known_args]
        rw [hmain, hc2]
        simp [List.append_nil]
      refine ⟨ctr2, [], htr, ?_, ?_, ?_⟩
      · intro e hel
        exact (runCall_paths fuel).2 t.subparsers path nid 0 _ _ e (by rw [hc2]; exact hel)
      · intro e her
        exact absurd her (by simp)
      · intro flds hf
        rw [List.append_nil] at hf
        exact absurd ((runCall_paths fuel).2 t.subparsers path nid 0 _ _ _
          (by rw [hc2]; exact hf)) (fun h => produced_not_childStep path flds h)
    | outOfFuel =>
      have htr : (parse_known_args (fuel + 1) t path nid args).2 = ctr2 ++ [] := by
        simp only [parse_known_args]
        rw [hmain, hc2]
        simp [List.append_nil]
      refine ⟨ctr2, [], htr, ?_, ?_, ?_⟩
      · intro e hel
        exact (runCall_paths fuel).2 t.subparsers path nid 0 _ _ e (by rw [hc2]; exact hel)
      · intro e her
        exact absurd her (by simp)
      · intro flds hf
        rw [List.append_nil] at hf
        exact absurd ((runCall_paths fuel).2 t.subparsers path nid 0 _ _ _
          (by rw [hc2]; exact hf)) (fun h => produced_not_childStep path flds h)
  · intro hb
    have hmain := parse_step_breadth_first fuel t path nid args
      (group_arguments args (all_subparser_names t)).1
      (group_arguments args (all_subparser_names t)).2 hb rfl
    rcases hp : parse_single_level t path
      (group_arguments args (all_subparser_names t)).2 ⟨nid, initFields t⟩ with ⟨po, ptr⟩
    cases po with
    | ok ns1 u1 =>
      rcases hc2 : runCall fuel (.children t.subparsers path nid 0
        (group_arguments args (all_subparser_names t)).1 ns1) with ⟨co, ctr2⟩
      have htr : (parse_known_args (fuel + 1) t path nid args).2 = ptr ++ ctr2 := by
        simp only [parse_known_args]
        rw [hmain, hp]
        simp only
        rw [hc2]
        cases co <;> rfl
      refine ⟨ptr, ctr2, htr, ?_, ?_, ?_⟩
      · intro e her
        exact psl_events t path _ ⟨nid, initFields t⟩ e (by rw [hp]; exact her)
      · intro e hel
        exact (runCall_paths fuel).2 t.subparsers path nid 0 _ _ e (by rw [hc2]; exact hel)
      · intro flds hf
        rcases List.mem_append.mp hf with hfl | hfr
        · have hfe := psl_produced t path _ ⟨nid, initFields t⟩ flds (by rw [hp]; exact hfl)
          refine ⟨hfe, ?_⟩
          intro k hk
          rw [hfe]
          exact builtin_preserves_other_keys _ _ _ _ hk
        · exact absurd ((runCall_paths fuel).2 t.subparsers path nid 0 _ _ _
            (by rw [hc2]; exact hfr)) (fun h => produced_not_childStep path flds h)
    | exit code msg =>
      have htr : (parse_known_args (fuel + 1) t path nid args).2 = ptr ++ [] := by
        simp only [parse_known_args]
        rw [hmain, hp]
        simp [List.append_nil]
      refine ⟨ptr, [], htr, ?_, ?_, ?_⟩
      · intro e her
        exact psl_events t path _ ⟨nid, initFields t⟩ e (by rw [hp]; exact her)
      · intro e hel
        exact absurd hel (by simp)
      · intro flds hf
        rw [List.append_nil] at hf
        have hfe := psl_produced t path _ ⟨nid, initFields t⟩ flds (by rw [hp]; exact hf)
        refine ⟨hfe, ?_⟩
        intro k hk
        rw [hfe]
        exact builtin_preserves_other_keys _ _ _ _ hk
    | assertFail =>
      have htr : (parse_known_args (fuel + 1) t path nid args).2 = ptr ++ [] := by
        simp only [parse_known_args]
        rw [hmain, hp]
        simp [List.append_nil]
      refine ⟨ptr, [], htr, ?_, ?_, ?_⟩
      · intro e her
        exact psl_events t path _ ⟨nid, initFields t⟩ e (by rw [hp]; exact her)
      · intro e hel
        exact absurd hel (by simp)
      · intro flds hf
        rw [List.append_nil] at hf
        have hfe := psl_produced t path _ ⟨nid, initFields t⟩ flds (by rw [hp]; exact hf)
        refine ⟨hfe, ?_⟩
        intro k hk
        rw [hfe]
        exact builtin_preserves_other_keys _ _ _ _ hk
    | outOfFuel =>
      have htr : (parse_known_args (fuel + 1) t path nid args).2 = ptr ++ [] := by
        simp only [parse_known_args]
        rw [hmain, hp]
        simp [List.append_nil]
      refine ⟨ptr, [], htr, ?_, ?_, ?_⟩
      · intro e her
        exact psl_events t path _ ⟨nid, initFields t⟩ e (by rw [hp]; exact her)
      · intro e hel
        exact absurd hel (by simp)
      · intro flds hf
        rw [List.append_nil] at hf
        have hfe := psl_produced t path _ ⟨nid, initFields t⟩ flds (by rw [hp]; exact hf)
        refine ⟨hfe, ?_⟩
        intro k hk
        rw [hfe]
        exact builtin_preserves_other_keys _ _ _ _ hk

/-- C6, witness: instantiated at the depth-first `demoRoot` and the
breadth-first `demoRootBF` on concrete token sequences. -/
theorem c6_parsing_order_witness :
    (∃ trC trO,
      (parse_known_args 10 demoRoot [] 0 ["input", "--format", "jpeg"]).2 =
        trC ++ trO
      ∧ (∀ e ∈ trC, isChildStep [] e)
      ∧ (∀ e ∈ trO, isOwnStep [] e)
      ∧ ∀ flds, Event.produced [] flds ∈ trC ++ trO →
          ∃ ns1 u1, runChildren 9 demoRoot.subparsers [] 0 0
              (group_arguments ["input", "--format", "jpeg"]
                (all_subparser_names demoRoot)).1
              ⟨0, initFields demoRoot⟩ = (.ok ns1 u1, trC)
            ∧ flds = (builtinParseKnownArgs (argumentList demoRoot)
                (group_arguments ["input", "--format", "jpeg"]
                  (all_subparser_names demoRoot)).2 ns1).1.fields
            ∧ ∀ k, (∀ a ∈ argumentList demoRoot, a.name ≠ k) →
                dlookup flds k = dlookup ns1.fields k)
    ∧ (∃ trO trC,
      (parse_known_args 10 demoRootBF [] 0 ["input"]).2 = trO ++ trC
      ∧ (∀ e ∈ trO, isOwnStep [] e)
      ∧ (∀ e ∈ trC, isChildStep [] e)
      ∧ ∀ flds, Event.produced [] flds ∈ trO ++ trC →
          flds = (builtinParseKnownArgs (argumentList demoRootBF)
            (group_arguments ["input"] (all_subparser_names demoRootBF)).2
            ⟨0, initFields demoRootBF⟩).1.fields
          ∧ ∀ k, (∀ a ∈ argumentList demoRootBF, a.name ≠ k) →
              dlookup flds k = dlookup (initFields demoRootBF) k) :=
  ⟨(c6_parsing_order 9 demoRoot [] 0 ["input", "--format", "jpeg"]).1 rfl,
   (c6_parsing_order 9 demoRootBF [] 0 ["input"]).2 rfl⟩

/-- C5, evaluation at the failing input: the root's direct child `zchild` is
skip-if-absent and its name appears nowhere in the (empty) input, yet after
the earlier lifted sibling `alift` (whose own sub-parser is also named
`zchild`) is processed, the direct child is parsed with an empty token group
instead of being skipped: `namespace.zchild` is a nested namespace rather
than `None`, and the child's own-parse/validate/produce events all fire.
The lifted-branch comprehension accesses `grouped_args[key]` for every key
before its membership guard runs, inserting the key, against the adjacent
comment `only include the sub-parser if it was explicitly enlisted`. -/
theorem c5_skip_if_absent_violated :
    parse_known_args 10 c5root [] 0 [] =
      (.ok ⟨0, [("lopt", .vNone), ("zchild", .vNs 2 [("zopt", .vNone)])]⟩ [],
       [.childSkipped ["alift"] "zchild",
        .ownParsed ["zchild"] [("zopt", .vNone)],
        .validated ["zchild"],
        .produced ["zchild"] [("zopt", .vNone)],
        .ownParsed [] [("lopt", .vNone), ("zchild", .vNs 2 [("zopt", .vNone)])],
        .validated [],
        .produced [] [("lopt", .vNone), ("zchild", .vNs 2 [("zopt", .vNone)])]])
    ∧ dlookup [("lopt", Val.vNone),
        ("zchild", Val.vNs 2 [("zopt", Val.vNone)])] "zchild" ≠
      some Val.vNone :=
  ⟨rfl, fun h => Val.noConfusion (Option.some.inj h)⟩

/-- C1, counterexample: a lifted child whose recursive parse returns the
leftover token `extra` does not propagate it into the parent's leftover; the
parent aborts the pass with `SystemExit(2)` and the message
`unrecognized arguments: extra` raised through the child, so no successful
result is returned at all. -/
theorem c1_counterexample :
    parse_known_args 4 c1root [] 0 [] =
      (.exit 2 "unrecognized arguments: extra",
       [.ownParsed ["lift"] [("flag", .vNone)], .validated ["lift"],
        .produced ["lift"] [("flag", .vNone)]])
    ∧ ∀ ns unk tr, parse_known_args 4 c1root [] 0 [] ≠ (.ok ns unk, tr) := by
  refine ⟨rfl, ?_⟩
  intro ns unk tr h
  rw [show parse_known_args 4 c1root [] 0 [] =
    ((.exit 2 "unrecognized arguments: extra" : Outcome),
     ([.ownParsed ["lift"] [("flag", .vNone)], .validated ["lift"],
       .produced ["lift"] [("flag", .vNone)]] : List Event)) from rfl] at h
  have hfst := congrArg Prod.fst h
  simp only at hfst
  exact Outcome.noConfusion hfst

end DP
